import Mathlib

/-!
# Verification of the cachew cache / git-proxy core

A shallow embedding, in Lean 4, of the parts of the `block/cachew` repository
that the specification's claims are about:

* the in-memory cache backend (`internal/cache/memory.go`): entries, TTLs,
  size accounting, eviction on writer close;
* the fetch-through helper (`internal/cache/http.go`);
* the git strategy's spool keys and repo-path extraction
  (`internal/strategy/git/git.go`);
* the git clone manager (`internal/gitclone/manager.go`) and the
  credential-injecting `gitCommand` helper.

Go `time.Time` instants and `time.Duration` values are embedded as `Int`
(an absolute tick count / a tick count); `t1.After(t2)` is `t1 > t2`.
Byte slices are `List Nat` (each element `< 256` where it matters),
`http.Header` is an association list from canonical header names to value
lists (a Go map with its keys unique), and fallible operations return
`Option` / `Except` / an error component.
-/

namespace Cachew

/-- Bytes of a body or cache blob (each entry is a byte value). -/
abbrev ByteStr := List Nat

/-! ## Association-list maps

Go maps (`map[string]V`) are embedded as association lists with unique keys.
`delete` keeps the outer binding structure exactly as the Go code does:
deleting a key from a namespace's inner map never removes the namespace's
binding in the outer map. -/

/-- Go map lookup `m[k]` (with its `ok` flag as `Option`). -/
def alookup {α : Type} (l : List (String × α)) (k : String) : Option α :=
  (l.find? (fun p => p.1 == k)).map (·.2)

/-- Go map assignment `m[k] = v`: replace the binding if present, else add it. -/
def aupdate {α : Type} (l : List (String × α)) (k : String) (v : α) :
    List (String × α) :=
  if l.any (fun p => p.1 == k) then
    l.map (fun p => if p.1 == k then (k, v) else p)
  else l ++ [(k, v)]

/-- Go `delete(m, k)`. -/
def aerase {α : Type} (l : List (String × α)) (k : String) : List (String × α) :=
  l.filter (fun p => !(p.1 == k))

/-- Update the value bound to `k` in place (used for mutating the inner map
`m.entries[ns]` through the reference Go holds to it). -/
def amodify {α : Type} (l : List (String × α)) (k : String) (f : α → α) :
    List (String × α) :=
  l.map (fun p => if p.1 == k then (p.1, f p.2) else p)

/-! ## HTTP headers

`http.Header` is `map[string][]string`; keys are assumed canonical (the repo
always uses canonical names such as `"Last-Modified"`), so `Get`/`Set` do not
re-canonicalise here. -/

/-- A Go `http.Header`: header name ↦ list of values, keys unique. -/
abbrev Header := List (String × List String)

/-- `http.Header.Get`: first value for the key, `""` when absent or empty. -/
def headerGet (h : Header) (k : String) : String :=
  match alookup h k with
  | some (v :: _) => v
  | _ => ""

/-- `http.Header.Set`: bind the key to the single value `v`. -/
def headerSet (h : Header) (k v : String) : Header :=
  aupdate h k [v]

/-- Abstraction of `now.UTC().Format(http.TimeFormat)`: an encoding of the
instant as a nonempty string. The claims below depend only on the result
being a nonempty header value determined by `now`. -/
def httpTimeFormat (now : Int) : String :=
  ⟨'T' :: (toString now).data⟩

/-! ## The in-memory cache backend (`internal/cache/memory.go`) -/

/-- `cache.MemoryConfig`: size limit in megabytes and default max TTL. -/
structure MemoryConfig where
  limitMB : Int
  maxTTL : Int
  deriving Repr, DecidableEq

/-- `cache.memoryEntry`. -/
structure MemoryEntry where
  data : ByteStr
  expiresAt : Int
  headers : Header
  deriving Repr, DecidableEq

/-- The inner map of `Memory.entries`: key ↦ entry. -/
abbrev NsEntries := List (String × MemoryEntry)

/-- `cache.Memory`: namespace ↦ key ↦ entry, plus the accounted size.
`nspace` is the Go field `namespace` (a Lean keyword). -/
structure Memory where
  config : MemoryConfig
  nspace : String
  entries : List (String × NsEntries)
  currentSize : Int
  deriving Repr, DecidableEq

/-- `Memory.Stat`: headers of a present, unexpired entry. -/
def memStat (m : Memory) (key : String) (now : Int) : Option Header :=
  match alookup m.entries m.nspace with
  | none => none
  | some nsEntries =>
    match alookup nsEntries key with
    | none => none
    | some e => if now > e.expiresAt then none else some e.headers

/-- `Memory.Open`: data and headers of a present, unexpired entry. -/
def memOpen (m : Memory) (key : String) (now : Int) : Option (ByteStr × Header) :=
  match alookup m.entries m.nspace with
  | none => none
  | some nsEntries =>
    match alookup nsEntries key with
    | none => none
    | some e => if now > e.expiresAt then none else some (e.data, e.headers)

/-- `Memory.Delete`: `none` is `os.ErrNotExist`. -/
def memDelete (m : Memory) (key : String) : Option Memory :=
  match alookup m.entries m.nspace with
  | none => none
  | some nsEntries =>
    match alookup nsEntries key with
    | none => none
    | some e =>
      some { m with
        currentSize := m.currentSize - (e.data.length : Int),
        entries := amodify m.entries m.nspace (fun l => aerase l key) }

/-- `cache.memoryWriter` (the `cache` back-pointer is passed to `Close`
explicitly; the context is its cancellation flag at close time). -/
structure MemoryWriter where
  nspace : String
  key : String
  buf : ByteStr
  expiresAt : Int
  headers : Header
  closed : Bool
  ctxCancelled : Bool
  deriving Repr, DecidableEq

/-- `Memory.Create`: builds the writer; clones the headers and populates
`Last-Modified` when `Get` returns `""`; `ttl == 0` falls back to the
configured `MaxTTL`. -/
def memCreate (m : Memory) (key : String) (headers : Header) (ttl : Int)
    (now : Int) (ctxCancelled : Bool) : MemoryWriter :=
  let ttl1 := if ttl == 0 then m.config.maxTTL else ttl
  let cloned := headers
  let cloned1 :=
    if headerGet cloned "Last-Modified" == "" then
      headerSet cloned "Last-Modified" (httpTimeFormat now)
    else cloned
  { nspace := m.nspace
    key := key
    buf := []
    expiresAt := now + ttl1
    headers := cloned1
    closed := false
    ctxCancelled := ctxCancelled }

/-- `memoryWriter.Write`. -/
def memWrite (w : MemoryWriter) (p : ByteStr) : Except String (MemoryWriter × Nat) :=
  if w.closed then Except.error "writer closed"
  else Except.ok ({ w with buf := w.buf ++ p }, p.length)

/-- One collected row of `Memory.evictOldest`'s `entryInfo`. -/
structure EntryInfo where
  nspace : String
  key : String
  size : Int
  expiresAt : Int
  deriving Repr, DecidableEq

/-- Collect every entry of every namespace (`evictOldest`'s gathering loop). -/
def collectEntries (entries : List (String × NsEntries)) : List EntryInfo :=
  (entries.map (fun p => p.2.map (fun q =>
    { nspace := p.1, key := q.1, size := (q.2.data.length : Int),
      expiresAt := q.2.expiresAt : EntryInfo }))).flatten

/-- Inner loop of `evictOldest`'s exchange sort for a fixed `i`: comparing
`entries[i]` against each later `entries[j]` and swapping when
`entries[i].expiresAt.After(entries[j].expiresAt)` leaves the minimum at
position `i` and the displaced elements behind. -/
def selectPass (x : EntryInfo) : List EntryInfo → EntryInfo × List EntryInfo
  | [] => (x, [])
  | y :: ys =>
    if x.expiresAt > y.expiresAt then
      let r := selectPass y ys
      (r.1, x :: r.2)
    else
      let r := selectPass x ys
      (r.1, y :: r.2)

/-- The outer loop of the exchange sort, with fuel (the list length). -/
def selectionSortFuel : Nat → List EntryInfo → List EntryInfo
  | 0, l => l
  | _ + 1, [] => []
  | n + 1, x :: xs =>
    let r := selectPass x xs
    r.1 :: selectionSortFuel n r.2

/-- `evictOldest`'s sort: ascending by `expiresAt` (earliest first). -/
def sortByExpiry (l : List EntryInfo) : List EntryInfo :=
  selectionSortFuel l.length l

/-- Removing one evicted entry: subtract its size, delete it from its
namespace's inner map. -/
def evictEntryRemove (m : Memory) (e : EntryInfo) : Memory :=
  { m with
    currentSize := m.currentSize - e.size,
    entries := amodify m.entries e.nspace (fun l => aerase l e.key) }

/-- `evictOldest`'s eviction loop over the sorted rows, carrying
`freedSpace`; it stops as soon as `freedSpace >= neededSpace`. -/
def evictGo (needed : Int) : List EntryInfo → Int → Memory → Memory
  | [], _, m => m
  | e :: es, freed, m =>
    if freed ≥ needed then m
    else evictGo needed es (freed + e.size) (evictEntryRemove m e)

/-- `Memory.evictOldest`. -/
def evictOldest (m : Memory) (neededSpace : Int) : Memory :=
  evictGo neededSpace (sortByExpiry (collectEntries m.entries)) 0 m

/-- The `Close` step that makes sure `w.cache.entries[w.namespace]` exists. -/
def ensureNs (entries : List (String × NsEntries)) (ns : String) :
    List (String × NsEntries) :=
  if (alookup entries ns).isSome then entries else entries ++ [(ns, ([] : NsEntries))]

/-- The size of the entry currently held for a key (`Close`'s `oldSize`). -/
def oldSizeOfEntries (entries : List (String × NsEntries)) (ns key : String) : Int :=
  match alookup ((alookup entries ns).getD []) key with
  | some oldEntry => oldEntry.data.length
  | none => 0

/-- The body of `memoryWriter.Close` past its guards: accounting, eviction,
then publication of the buffered entry. -/
def memWriterCloseCore (w : MemoryWriter) (m : Memory) : Memory :=
  let newSize : Int := w.buf.length
  let limitBytes : Int := m.config.limitMB * 1024 * 1024
  let m1 : Memory := { m with entries := ensureNs m.entries w.nspace }
  let oldSize : Int := oldSizeOfEntries m1.entries w.nspace w.key
  let m2 :=
    if limitBytes > 0 ∧ m1.currentSize - oldSize + newSize - limitBytes > 0 then
      evictOldest m1 (m1.currentSize - oldSize + newSize - limitBytes)
    else m1
  let m3 : Memory := { m2 with currentSize := m2.currentSize - oldSize }
  let newEntry : MemoryEntry :=
    { data := w.buf, expiresAt := w.expiresAt, headers := w.headers }
  let m4 : Memory :=
    { m3 with entries := amodify m3.entries w.nspace (fun l => aupdate l w.key newEntry) }
  { m4 with currentSize := m4.currentSize + newSize }

/-- `memoryWriter.Close`: the result is `(error?, cache-after)`; on error the
cache is untouched (nothing is published). -/
def memWriterClose (w : MemoryWriter) (m : Memory) : Option String × Memory :=
  if w.closed then (none, m)
  else if w.ctxCancelled then (some "create operation cancelled", m)
  else (none, memWriterCloseCore w m)

/-- Total byte length of all resident entries (what `currentSize` is meant
to track). -/
def totalResidentSize (m : Memory) : Int :=
  ((collectEntries m.entries).map EntryInfo.size).sum

/-! Verification-side descriptions of the eviction loop used to state the
eviction claims. -/

/-- Remove each listed row's entry from its namespace. -/
def removeInfos (infos : List EntryInfo) (entries : List (String × NsEntries)) :
    List (String × NsEntries) :=
  infos.foldl (fun es e => amodify es e.nspace (fun l => aerase l e.key)) entries

/-- Total size of a batch of rows. -/
def sumSizes (infos : List EntryInfo) : Int :=
  (infos.map EntryInfo.size).sum

/-- How many leading rows the eviction loop consumes before it has freed
`needed` bytes (or runs out of rows). -/
def evictCount (needed : Int) : List EntryInfo → Int → Nat
  | [], _ => 0
  | e :: es, freed =>
    if freed ≥ needed then 0 else (evictCount needed es (freed + e.size)) + 1

/-- A blob of `n` zero bytes (only its length matters). -/
def mkBytes (n : Nat) : ByteStr :=
  List.replicate n 0

/-- A memory cache at its smallest positive size limit (1 MB), holding two
one-byte entries in the root namespace: `"a"` expiring at tick 1 and `"b"`
at tick 2, with `currentSize` correctly accounting both. -/
def c3Memory : Memory :=
  { config := { limitMB := 1, maxTTL := 3600 }
    nspace := ""
    entries :=
      [("", [("a", { data := [0], expiresAt := 1, headers := [] }),
             ("b", { data := [0], expiresAt := 2, headers := [] })])]
    currentSize := 2 }

/-- A writer re-creating key `"a"` with a 1 MiB + 1 byte body, which forces
eviction on close; the soonest-expiring entry is `"a"` itself. -/
def c3Writer : MemoryWriter :=
  { nspace := ""
    key := "a"
    buf := mkBytes 1048577
    expiresAt := 50
    headers := []
    closed := false
    ctxCancelled := false }

/-- An empty memory cache with the default configuration. -/
def c4Memory : Memory :=
  { config := { limitMB := 1024, maxTTL := 3600 }
    nspace := ""
    entries := []
    currentSize := 0 }

/-! ## Go string helpers (byte-for-byte on the character lists) -/

/-- `strings.HasSuffix`. -/
def strHasSuffix (s t : String) : Bool :=
  t.data.isSuffixOf s.data

/-- `strings.TrimSuffix`. -/
def strTrimSuffix (s t : String) : String :=
  if strHasSuffix s t then ⟨s.data.take (s.data.length - t.data.length)⟩ else s

/-- `strings.HasPrefix`. -/
def strStartsWith (s t : String) : Bool :=
  t.data.isPrefixOf s.data

/-- Substring occurrence on character lists (`strings.Contains`). -/
def isSubChars (pat : List Char) : List Char → Bool
  | [] => pat.isEmpty
  | c :: rest => pat.isPrefixOf (c :: rest) || isSubChars pat rest

/-- `strings.Contains s sub`. -/
def strContains (s sub : String) : Bool :=
  isSubChars sub.data s.data

/-- Leftmost, non-overlapping replacement (`strings.ReplaceAll`) on character
lists, with fuel (the list length bounds the number of steps). -/
def replaceChars (pat rep : List Char) : Nat → List Char → List Char
  | 0, l => l
  | fuel + 1, l =>
    if pat ≠ [] ∧ pat.isPrefixOf l then rep ++ replaceChars pat rep fuel (l.drop pat.length)
    else
      match l with
      | [] => []
      | c :: rest => c :: replaceChars pat rep fuel rest

/-- `strings.ReplaceAll`. -/
def strReplaceAll (s pat rep : String) : String :=
  ⟨replaceChars pat.data rep.data s.data.length s.data⟩

/-- A single-quote character as a string (kept out of string literals). -/
def sq : String := String.singleton (Char.ofNat 39)

/-! ## `ExtractRepoPath` (`internal/strategy/git/git.go`) -/

/-- `ExtractRepoPath`: trim `/info/refs`, then `/git-upload-pack`, then
`/git-receive-pack`, then `.git` — one trim each, in that order. -/
def ExtractRepoPath (pathValue : String) : String :=
  let r1 := strTrimSuffix pathValue "/info/refs"
  let r2 := strTrimSuffix r1 "/git-upload-pack"
  let r3 := strTrimSuffix r2 "/git-receive-pack"
  strTrimSuffix r3 ".git"

/-! ## SHA-256 (`crypto/sha256`), on byte lists with `Nat` arithmetic -/

/-- Truncate to 32 bits. -/
def w32 (n : Nat) : Nat := n % 4294967296

/-- 32-bit right rotation. -/
def rotr (n x : Nat) : Nat := w32 ((x >>> n) ||| (x <<< (32 - n)))

/-- The 64 SHA-256 round constants (decimal). -/
def sha256K : List Nat :=
  [1116352408, 1899447441, 3049323471, 3921009573, 961987163,
   1508970993, 2453635748, 2870763221, 3624381080, 310598401,
   607225278, 1426881987, 1925078388, 2162078206, 2614888103,
   3248222580, 3835390401, 4022224774, 264347078, 604807628,
   770255983, 1249150122, 1555081692, 1996064986, 2554220882,
   2821834349, 2952996808, 3210313671, 3336571891, 3584528711,
   113926993, 338241895, 666307205, 773529912, 1294757372,
   1396182291, 1695183700, 1986661051, 2177026350, 2456956037,
   2730485921, 2820302411, 3259730800, 3345764771, 3516065817,
   3600352804, 4094571909, 275423344, 430227734, 506948616,
   659060556, 883997877, 958139571, 1322822218, 1537002063,
   1747873779, 1955562222, 2024104815, 2227730452, 2361852424,
   2428436474, 2756734187, 3204031479, 3329325298]

/-- The SHA-256 initial hash value (decimal). -/
def sha256H0 : List Nat :=
  [1779033703, 3144134277, 1013904242, 2773480762,
   1359893119, 2600822924, 528734635, 1541459225]

/-- A value as `numBytes` big-endian bytes. -/
def toBytesBE (numBytes : Nat) (v : Nat) : List Nat :=
  (List.range numBytes).map (fun i => (v >>> (8 * (numBytes - 1 - i))) % 256)

/-- Groups of four bytes as big-endian 32-bit words. -/
def toWordsBE : List Nat → List Nat
  | b0 :: b1 :: b2 :: b3 :: rest => (((b0 * 256 + b1) * 256 + b2) * 256 + b3) :: toWordsBE rest
  | _ => []

/-- SHA-256 padding: `0x80`, zeros to 56 mod 64, then the bit length as
eight big-endian bytes. -/
def sha256Pad (msg : List Nat) : List Nat :=
  let len := msg.length
  let zeros := (64 + 56 - (len + 1) % 64) % 64
  msg ++ [0x80] ++ List.replicate zeros 0 ++ toBytesBE 8 (8 * len)

/-- Message-schedule extension: emits `count` further words, carrying the
last sixteen words in order. -/
def sha256SchedExt : Nat → List Nat → List Nat
  | 0, _ => []
  | count + 1, last16 =>
    let wm16 := last16.getD 0 0
    let wm15 := last16.getD 1 0
    let wm7 := last16.getD 9 0
    let wm2 := last16.getD 14 0
    let s0 := (rotr 7 wm15) ^^^ (rotr 18 wm15) ^^^ (wm15 >>> 3)
    let s1 := (rotr 17 wm2) ^^^ (rotr 19 wm2) ^^^ (wm2 >>> 10)
    let next := w32 (wm16 + s0 + wm7 + s1)
    next :: sha256SchedExt count (last16.drop 1 ++ [next])

/-- The 64-word message schedule of one block. -/
def sha256Schedule (block : List Nat) : List Nat :=
  let w0 := toWordsBE block
  w0 ++ sha256SchedExt 48 w0

/-- One SHA-256 round: state is the eight working variables `a..h`. -/
def sha256Round (st : List Nat) (kw : Nat × Nat) : List Nat :=
  match st with
  | [a, b, c, d, e, f, g, h] =>
    let s1 := (rotr 6 e) ^^^ (rotr 11 e) ^^^ (rotr 25 e)
    let ch := (e &&& f) ^^^ ((4294967295 - e) &&& g)
    let temp1 := w32 (h + s1 + ch + kw.1 + kw.2)
    let s0 := (rotr 2 a) ^^^ (rotr 13 a) ^^^ (rotr 22 a)
    let maj := (a &&& b) ^^^ (a &&& c) ^^^ (b &&& c)
    let temp2 := w32 (s0 + maj)
    [w32 (temp1 + temp2), a, b, c, w32 (d + temp1), e, f, g]
  | other => other

/-- Compress one 64-byte block into the running hash. -/
def sha256Compress (h : List Nat) (block : List Nat) : List Nat :=
  let ws := sha256Schedule block
  let st := (sha256K.zip ws).foldl sha256Round h
  (h.zip st).map (fun p => w32 (p.1 + p.2))

/-- Split into 64-byte blocks (fuel: the list length). -/
def chunks64 : Nat → List Nat → List (List Nat)
  | 0, _ => []
  | fuel + 1, l => if l.isEmpty then [] else l.take 64 :: chunks64 fuel (l.drop 64)

/-- `sha256.Sum256`: the 32 digest bytes of a byte list. -/
def sha256 (msg : List Nat) : List Nat :=
  let padded := sha256Pad msg
  let hh := (chunks64 padded.length padded).foldl sha256Compress sha256H0
  (hh.map (toBytesBE 4)).flatten

/-- A hex digit character (lowercase, as `encoding/hex`). -/
def hexChar (n : Nat) : Char :=
  if n < 10 then Char.ofNat (48 + n) else Char.ofNat (87 + n)

/-- `hex.EncodeToString`. -/
def hexEncode (bs : List Nat) : String :=
  ⟨(bs.map (fun b => [hexChar (b / 16), hexChar (b % 16)])).flatten⟩

/-- UTF-8 encoding of one code point. -/
def utf8EncodeCharNat (n : Nat) : List Nat :=
  if n < 0x80 then [n]
  else if n < 0x800 then [0xC0 ||| (n >>> 6), 0x80 ||| (n &&& 0x3F)]
  else if n < 0x10000 then
    [0xE0 ||| (n >>> 12), 0x80 ||| ((n >>> 6) &&& 0x3F), 0x80 ||| (n &&& 0x3F)]
  else
    [0xF0 ||| (n >>> 18), 0x80 ||| ((n >>> 12) &&& 0x3F),
     0x80 ||| ((n >>> 6) &&& 0x3F), 0x80 ||| (n &&& 0x3F)]

/-- The UTF-8 bytes of a string (Go strings are UTF-8 byte slices). -/
def strBytes (s : String) : List Nat :=
  (s.data.map (fun c => utf8EncodeCharNat c.toNat)).flatten

/-! ## Spool keys (`SpoolKeyForRequest`, `internal/strategy/git/git.go`) -/

/-- `SpoolKeyForRequest pathValue r`: `r` is its method and optional body
(reading the body is modelled as always succeeding). -/
def SpoolKeyForRequest (pathValue : String) (method : String)
    (body : Option ByteStr) : String :=
  if !(strHasSuffix pathValue "/git-upload-pack") then ""
  else
    match method == "POST", body with
    | true, some b => "upload-pack-" ++ hexEncode ((sha256 b).take 8)
    | _, _ => "upload-pack"

/-! ## The fetch-through helper (`cache.Fetch`, `internal/cache/http.go`) -/

/-- Modelled from the spec: `cache.NewKey` is not under `src/` (only its
callers are); per the spec a cache key is the SHA-256 of the UTF-8 input
string ("Compute `key = sha256(request.URL.String())`"). -/
def NewKey (s : String) : ByteStr :=
  sha256 (strBytes s)

/-- The error side of `Cache.Open`. -/
inductive CacheOpenErr
  | notExist
  | ioError (msg : String)
  deriving Repr, DecidableEq

/-- The fields of `http.Response` that `Fetch` reads or builds. -/
structure HttpResponse where
  status : String
  statusCode : Nat
  headers : Header
  body : ByteStr
  deriving Repr, DecidableEq

/-- What `Fetch` hands back: a response or an `HTTPError` (status, message). -/
inductive FetchResult
  | ok (resp : HttpResponse)
  | httpError (status : Nat) (msg : String)
  deriving Repr, DecidableEq

/-- A `Fetch` call's observable effects: its result, whether `client.Do`
was issued, and the cache entry creation it started (key and headers),
if any. -/
structure FetchOutcome where
  result : FetchResult
  originCalled : Bool
  created : Option (ByteStr × Header)
  deriving Repr, DecidableEq

/-- `cache.Fetch`: the cache is its `Open` behaviour on keys, the origin is
the outcome `client.Do(r)` would produce. On a hit, a synthetic `200 OK`
response with the cached headers and body; on any other `Open` error, 500;
on origin transport failure, 502; a non-200 origin response is returned
unchanged without caching; a 200 origin response is teed into a
`Create(key, headers, ttl=0)` writer. -/
def Fetch (cacheOpen : ByteStr → Except CacheOpenErr (ByteStr × Header))
    (url : String) (origin : Except String HttpResponse) : FetchOutcome :=
  let key := NewKey url
  match cacheOpen key with
  | Except.ok (data, hdrs) =>
    { result := FetchResult.ok
        { status := "200 OK", statusCode := 200, headers := hdrs, body := data }
      originCalled := false
      created := none }
  | Except.error (CacheOpenErr.ioError e) =>
    { result := FetchResult.httpError 500 ("failed to open cache: " ++ e)
      originCalled := false
      created := none }
  | Except.error CacheOpenErr.notExist =>
    match origin with
    | Except.error e =>
      { result := FetchResult.httpError 502 ("failed to fetch: " ++ e)
        originCalled := true
        created := none }
    | Except.ok resp =>
      if resp.statusCode != 200 then
        { result := FetchResult.ok resp, originCalled := true, created := none }
      else
        { result := FetchResult.ok resp
          originCalled := true
          created := some (key, resp.headers) }

/-! ## The git command builder (`Repository.gitCommand`) -/

/-- The `credential.helper` value built for a token: escape single quotes in
the token, then wrap it in the inline shell helper that answers `get` with
`username=x-access-token` and the token as password. -/
def credHelperString (token : String) : String :=
  let escapedToken := strReplaceAll token sq (sq ++ "\\" ++ sq ++ sq)
  "!f() \x7b test \"$1\" = get && echo username=x-access-token && printf "
    ++ sq ++ "password=%s\\n" ++ sq ++ " " ++ sq ++ escapedToken ++ sq ++ "; \x7d; f"

/-- `getInsteadOfDisableArgsForURL`: the `git config --get-regexp` subprocess
output is supplied pre-parsed as `(configKey, pattern)` rows; every row whose
pattern is a prefix of the target URL contributes `-c <key>=`. -/
def insteadOfDisableArgs (configRows : List (String × String))
    (targetURL : String) : List String :=
  if targetURL == "" then []
  else
    (configRows.map (fun row =>
      if strStartsWith targetURL row.2 then ["-c", row.1 ++ "="] else [])).flatten

/-- `Repository.gitCommand`: arguments of the `git` invocation. The
credential provider is a function from URL to token or error (`none` for a
nil provider); it is consulted only when the repo URL contains
`"github.com"`, and an error or empty token falls back to system
credentials. -/
def repoGitCommandArgs (configRows : List (String × String))
    (provider : Option (String → Except String String))
    (upstreamURL : String) (args : List String) : List String :=
  let token : String :=
    match provider with
    | none => ""
    | some p =>
      if strContains upstreamURL "github.com" then
        match p upstreamURL with
        | Except.ok t => t
        | Except.error _ => ""
      else ""
  let configArgs := insteadOfDisableArgs configRows upstreamURL
  let allArgs1 := configArgs
  let allArgs2 :=
    if token != "" then
      allArgs1 ++ ["-c", "credential.helper=" ++ credHelperString token]
    else allArgs1
  allArgs2 ++ args

/-- Scan for the first `"://"` and return what follows it. -/
def specURLHostAux : List Char → Option (List Char)
  | [] => none
  | c :: rest =>
    if ['/', '/'].isPrefixOf rest ∧ c == ':' then some (rest.drop 2)
    else specURLHostAux rest

/-- Modelled from the spec's phrase "a URL whose host is `github.com`": the
host component of a URL, i.e. what follows `"://"` up to the next `/`. Used
only to state the claim; the code itself never parses the host. -/
def specURLHost (u : String) : String :=
  match (specURLHostAux u.data : Option (List Char)) with
  | none => ""
  | some rest => ⟨rest.takeWhile (fun c => !(c == '/'))⟩

/-! ## The clone manager's `Repository.Clone` (`internal/gitclone/manager.go`) -/

/-- Repository lifecycle states (`gitclone.State`). -/
inductive GitState
  | empty
  | cloning
  | ready
  deriving Repr, DecidableEq

/-- The `Repository` fields `Clone` touches. -/
structure RepoState where
  state : GitState
  path : String
  upstreamURL : String
  lastFetch : Int
  deriving Repr, DecidableEq

/-- A `Clone` call's observable effects: the repository afterwards, whether
`executeClone` (the `git clone --mirror` run) was invoked, and the returned
error. -/
structure CloneOutcome where
  repo : RepoState
  gitInvoked : Bool
  err : Option String
  deriving Repr, DecidableEq

/-- `Repository.Clone`: a non-`empty` state returns `nil` at once; from
`empty` it transitions to `cloning`, runs `executeClone` (outcome supplied
as `execResult`), then to `ready` with `lastFetch = now` on success or back
to `empty` on failure. -/
def repoClone (r : RepoState) (execResult : Option String) (now : Int) :
    CloneOutcome :=
  if r.state ≠ GitState.empty then { repo := r, gitInvoked := false, err := none }
  else
    match execResult with
    | some e =>
      { repo := { r with state := GitState.empty }, gitInvoked := true, err := some e }
    | none =>
      { repo := { r with state := GitState.ready, lastFetch := now }
        gitInvoked := true
        err := none }

/-! # Lemmas about the association-list maps -/

theorem alookup_cons_self {α : Type} (p : String × α) (t : List (String × α))
    (k : String) (h : (p.1 == k) = true) :
    alookup (p :: t) k = some p.2 := by
  simp [alookup, List.find?, h]

theorem alookup_cons_of_ne {α : Type} (p : String × α) (t : List (String × α))
    (k : String) (h : (p.1 == k) = false) :
    alookup (p :: t) k = alookup t k := by
  simp [alookup, List.find?, h]

theorem find?_replace {α : Type} (l : List (String × α)) (k : String) (v : α)
    (h : l.any (fun p => p.1 == k) = true) :
    (l.map (fun p => if p.1 == k then (k, v) else p)).find? (fun p => p.1 == k) =
      some (k, v) := by
  induction l with
  | nil => simp at h
  | cons p t ih =>
    rcases hp : (p.1 == k) with _ | _
    · have hh : t.any (fun p => p.1 == k) = true := by
        simp only [List.any_cons, hp, Bool.false_or] at h
        exact h
      rw [List.map_cons, if_neg (by simp [hp])]
      rw [List.find?_cons_of_neg _ (by simp [hp])]
      exact ih hh
    · rw [List.map_cons, if_pos hp]
      rw [List.find?_cons_of_pos _ (by simp)]

theorem alookup_of_not_any {α : Type} (l : List (String × α)) (k : String)
    (h : l.any (fun p => p.1 == k) = false) :
    alookup l k = none := by
  unfold alookup
  have : l.find? (fun p => p.1 == k) = none := by
    rw [List.find?_eq_none]
    intro x hx hpx
    have : l.any (fun p => p.1 == k) = true := List.any_eq_true.mpr ⟨x, hx, hpx⟩
    simp [this] at h
  simp [this]

theorem alookup_append_single {α : Type} (l : List (String × α)) (k : String) (v : α)
    (h : alookup l k = none) :
    alookup (l ++ [(k, v)]) k = some v := by
  unfold alookup at h ⊢
  have hfind : l.find? (fun p => p.1 == k) = none := by
    cases hf : l.find? (fun p => p.1 == k) with
    | none => rfl
    | some p => rw [hf] at h; simp at h
  rw [List.find?_append, hfind]
  simp [List.find?]

theorem alookup_aupdate_self {α : Type} (l : List (String × α)) (k : String) (v : α) :
    alookup (aupdate l k v) k = some v := by
  unfold aupdate
  by_cases hany : l.any (fun p => p.1 == k) = true
  · rw [if_pos hany]
    unfold alookup
    rw [find?_replace l k v hany]
    rfl
  · have hf : l.any (fun p => p.1 == k) = false := by
      cases ha : l.any (fun p => p.1 == k)
      · rfl
      · exact absurd ha hany
    rw [if_neg (by simp [hf])]
    exact alookup_append_single l k v (alookup_of_not_any l k hf)

theorem alookup_amodify_eq {α : Type} (l : List (String × α)) (k : String) (f : α → α) :
    alookup (amodify l k f) k = (alookup l k).map f := by
  induction l with
  | nil => simp [alookup, amodify]
  | cons p t ih =>
    rcases hp : (p.1 == k) with _ | _
    · rw [amodify, List.map_cons, if_neg (by simp [hp])]
      rw [alookup_cons_of_ne _ _ _ hp, alookup_cons_of_ne _ _ _ hp]
      exact ih
    · rw [amodify, List.map_cons, if_pos hp]
      rw [alookup_cons_self (p.1, f p.2) _ _ hp, alookup_cons_self _ _ _ hp]
      rfl

theorem alookup_amodify_ne {α : Type} (l : List (String × α)) {k k' : String}
    (f : α → α) (hne : k' ≠ k) :
    alookup (amodify l k f) k' = alookup l k' := by
  induction l with
  | nil => simp [alookup, amodify]
  | cons p t ih =>
    rcases hp : (p.1 == k) with _ | _
    · rw [amodify, List.map_cons, if_neg (by simp [hp])]
      rcases hp' : (p.1 == k') with _ | _
      · rw [alookup_cons_of_ne _ _ _ hp', alookup_cons_of_ne _ _ _ hp']
        exact ih
      · rw [alookup_cons_self _ _ _ hp', alookup_cons_self _ _ _ hp']
    · have hk : p.1 = k := by simpa using hp
      have hp' : (p.1 == k') = false := by
        rw [hk]
        exact beq_eq_false_iff_ne.mpr (fun hc => hne hc.symm)
      rw [amodify, List.map_cons, if_pos hp]
      rw [alookup_cons_of_ne _ _ _ (by simpa using hp'),
        alookup_cons_of_ne _ _ _ hp']
      exact ih

theorem alookup_ensureNs_isSome (entries : List (String × NsEntries)) (ns : String) :
    (alookup (ensureNs entries ns) ns).isSome = true := by
  unfold ensureNs
  by_cases h : (alookup entries ns).isSome = true
  · rw [if_pos h]; exact h
  · have hn : alookup entries ns = none := by
      cases hh : alookup entries ns
      · rfl
      · rw [hh] at h; simp at h
    rw [if_neg (by simp [hn])]
    rw [alookup_append_single entries ns _ hn]
    rfl

theorem alookup_amodify_isSome {α : Type} (l : List (String × α)) (k k' : String)
    (f : α → α) :
    (alookup (amodify l k f) k').isSome = (alookup l k').isSome := by
  by_cases hk : k' = k
  · subst hk
    rw [alookup_amodify_eq]
    cases alookup l k' <;> rfl
  · rw [alookup_amodify_ne l f hk]

theorem removeInfos_isSome (infos : List EntryInfo) (entries : List (String × NsEntries))
    (ns : String) (h : (alookup entries ns).isSome = true) :
    (alookup (removeInfos infos entries) ns).isSome = true := by
  induction infos generalizing entries with
  | nil => exact h
  | cons e es ih =>
    have h1 : (alookup (amodify entries e.nspace (fun l => aerase l e.key)) ns).isSome
        = true := by
      rw [alookup_amodify_isSome]; exact h
    exact ih _ h1

theorem evictGo_eq (needed : Int) (l : List EntryInfo) :
    ∀ (freed : Int) (m : Memory),
    evictGo needed l freed m =
      { config := m.config, nspace := m.nspace,
        entries := removeInfos (l.take (evictCount needed l freed)) m.entries,
        currentSize := m.currentSize - sumSizes (l.take (evictCount needed l freed)) } := by
  induction l with
  | nil =>
    intro freed m
    simp [evictGo, evictCount, removeInfos, sumSizes]
  | cons e es ih =>
    intro freed m
    by_cases hf : freed ≥ needed
    · simp [evictGo, evictCount, hf, removeInfos, sumSizes]
    · rw [evictGo, if_neg hf, ih]
      rw [evictCount, if_neg hf]
      have htake : (e :: es).take ((evictCount needed es (freed + e.size)) + 1) =
          e :: es.take (evictCount needed es (freed + e.size)) := rfl
      rw [htake]
      have hrem : ∀ (rest : List EntryInfo) (ents : List (String × NsEntries)),
          removeInfos (e :: rest) ents =
            removeInfos rest (amodify ents e.nspace (fun l => aerase l e.key)) :=
        fun rest ents => rfl
      rw [hrem]
      have hsum : sumSizes (e :: es.take (evictCount needed es (freed + e.size))) =
          e.size + sumSizes (es.take (evictCount needed es (freed + e.size))) := by
        simp [sumSizes]
      rw [hsum]
      simp only [evictEntryRemove]
      rw [sub_sub]

theorem memWriterCloseCore_nspace (w : MemoryWriter) (m : Memory) :
    (memWriterCloseCore w m).nspace = m.nspace := by
  unfold memWriterCloseCore
  dsimp only
  split
  · rw [evictOldest, evictGo_eq]
  · rfl

theorem alookup_amodify_aupdate (E : List (String × NsEntries)) (ns key : String)
    (v : MemoryEntry) (h : (alookup E ns).isSome = true) :
    ∃ es, alookup (amodify E ns (fun l => aupdate l key v)) ns = some es ∧
      alookup es key = some v := by
  obtain ⟨es, hes⟩ := Option.isSome_iff_exists.mp h
  exact ⟨aupdate es key v, by rw [alookup_amodify_eq, hes]; rfl,
    alookup_aupdate_self es key v⟩

theorem memWriterCloseCore_open (w : MemoryWriter) (m : Memory) :
    ∃ es, alookup (memWriterCloseCore w m).entries w.nspace = some es ∧
      alookup es w.key =
        some { data := w.buf, expiresAt := w.expiresAt, headers := w.headers } := by
  have h1 : (alookup (ensureNs m.entries w.nspace) w.nspace).isSome = true :=
    alookup_ensureNs_isSome m.entries w.nspace
  unfold memWriterCloseCore
  dsimp only
  split
  · rw [evictOldest, evictGo_eq]
    dsimp only
    exact alookup_amodify_aupdate _ _ _ _ (removeInfos_isSome _ _ _ h1)
  · exact alookup_amodify_aupdate _ _ _ _ h1

theorem memOpen_eq (m : Memory) (key : String) (now : Int) (es : NsEntries)
    (e : MemoryEntry) (h1 : alookup m.entries m.nspace = some es)
    (h2 : alookup es key = some e) (h3 : ¬ now > e.expiresAt) :
    memOpen m key now = some (e.data, e.headers) := by
  unfold memOpen
  simp only [h1, h2]
  rw [if_neg h3]

theorem memStat_eq (m : Memory) (key : String) (now : Int) (es : NsEntries)
    (e : MemoryEntry) (h1 : alookup m.entries m.nspace = some es)
    (h2 : alookup es key = some e) (h3 : ¬ now > e.expiresAt) :
    memStat m key now = some e.headers := by
  unfold memStat
  simp only [h1, h2]
  rw [if_neg h3]

theorem selectPass_perm (l : List EntryInfo) :
    ∀ x : EntryInfo, List.Perm ((selectPass x l).1 :: (selectPass x l).2) (x :: l) := by
  induction l with
  | nil => intro x; simp [selectPass]
  | cons y ys ih =>
    intro x
    by_cases hc : x.expiresAt > y.expiresAt
    · simp only [selectPass, if_pos hc]
      exact List.Perm.trans (List.Perm.swap x (selectPass y ys).1 (selectPass y ys).2)
        (List.Perm.cons x (ih y))
    · simp only [selectPass, if_neg hc]
      refine List.Perm.trans (List.Perm.swap y (selectPass x ys).1 (selectPass x ys).2) ?_
      exact List.Perm.trans (List.Perm.cons y (ih x)) (List.Perm.swap x y ys)

theorem selectPass_min (l : List EntryInfo) :
    ∀ x : EntryInfo, (selectPass x l).1.expiresAt ≤ x.expiresAt ∧
      ∀ y ∈ l, (selectPass x l).1.expiresAt ≤ y.expiresAt := by
  induction l with
  | nil => intro x; simp [selectPass]
  | cons y ys ih =>
    intro x
    by_cases hc : x.expiresAt > y.expiresAt
    · simp only [selectPass, if_pos hc]
      obtain ⟨h1, h2⟩ := ih y
      refine ⟨by omega, ?_⟩
      intro z hz
      rcases List.mem_cons.mp hz with rfl | hz
      · exact h1
      · exact h2 z hz
    · simp only [selectPass, if_neg hc]
      obtain ⟨h1, h2⟩ := ih x
      refine ⟨h1, ?_⟩
      intro z hz
      rcases List.mem_cons.mp hz with rfl | hz
      · omega
      · exact h2 z hz

theorem selectionSortFuel_perm :
    ∀ (fuel : Nat) (l : List EntryInfo), List.Perm (selectionSortFuel fuel l) l := by
  intro fuel
  induction fuel with
  | zero => intro l; exact List.Perm.refl l
  | succ n ih =>
    intro l
    cases l with
    | nil => exact List.Perm.refl []
    | cons x xs =>
      exact List.Perm.trans
        (List.Perm.cons (selectPass x xs).1 (ih (selectPass x xs).2))
        (selectPass_perm xs x)

theorem selectionSortFuel_sorted :
    ∀ (fuel : Nat) (l : List EntryInfo), l.length ≤ fuel →
      List.Pairwise (fun a b => a.expiresAt ≤ b.expiresAt) (selectionSortFuel fuel l) := by
  intro fuel
  induction fuel with
  | zero =>
    intro l hl
    have : l = [] := List.length_eq_zero.mp (Nat.le_zero.mp hl)
    subst this
    exact List.Pairwise.nil
  | succ n ih =>
    intro l hl
    cases l with
    | nil => exact List.Pairwise.nil
    | cons x xs =>
      have hperm := selectPass_perm xs x
      have hlen : (selectPass x xs).2.length = xs.length := by
        have := hperm.length_eq
        simp at this
        omega
      refine List.Pairwise.cons ?_ (ih _ (by simp at hl; omega))
      intro z hz
      have hz2 : z ∈ (selectPass x xs).2 :=
        (selectionSortFuel_perm n (selectPass x xs).2).mem_iff.mp hz
      have hz3 : z ∈ x :: xs :=
        hperm.mem_iff.mp (List.mem_cons_of_mem _ hz2)
      obtain ⟨h1, h2⟩ := selectPass_min xs x
      rcases List.mem_cons.mp hz3 with rfl | hz4
      · exact h1
      · exact h2 z hz4

theorem sortByExpiry_perm (l : List EntryInfo) : List.Perm (sortByExpiry l) l :=
  selectionSortFuel_perm l.length l

theorem sortByExpiry_sorted (l : List EntryInfo) :
    List.Pairwise (fun a b => a.expiresAt ≤ b.expiresAt) (sortByExpiry l) :=
  selectionSortFuel_sorted l.length l (Nat.le_refl _)

theorem collectEntries_ensureNs (entries : List (String × NsEntries)) (ns : String) :
    collectEntries (ensureNs entries ns) = collectEntries entries := by
  unfold ensureNs
  split
  · rfl
  · simp [collectEntries]

theorem sumSizes_nil : sumSizes [] = 0 := rfl

theorem sumSizes_cons (e : EntryInfo) (t : List EntryInfo) :
    sumSizes (e :: t) = e.size + sumSizes t := by
  simp [sumSizes]

theorem evictCount_spec (needed : Int) :
    ∀ (l : List EntryInfo) (freed : Int),
      freed + sumSizes (l.take (evictCount needed l freed)) ≥ needed ∨
        evictCount needed l freed = l.length := by
  intro l
  induction l with
  | nil => intro freed; right; rfl
  | cons e es ih =>
    intro freed
    by_cases hf : freed ≥ needed
    · left
      rw [evictCount, if_pos hf]
      simp [sumSizes]
      omega
    · rw [evictCount, if_neg hf]
      rcases ih (freed + e.size) with h | h
      · left
        rw [List.take_succ_cons, sumSizes_cons]
        omega
      · right
        rw [h]
        rfl

theorem evictCount_min (needed : Int) :
    ∀ (l : List EntryInfo) (freed : Int) (j : Nat),
      j < evictCount needed l freed → freed + sumSizes (l.take j) < needed := by
  intro l
  induction l with
  | nil => intro freed j hj; rw [evictCount] at hj; omega
  | cons e es ih =>
    intro freed j hj
    by_cases hf : freed ≥ needed
    · rw [evictCount, if_pos hf] at hj; omega
    · rw [evictCount, if_neg hf] at hj
      cases j with
      | zero => simp [sumSizes]; omega
      | succ j2 =>
        have hj2 : j2 < evictCount needed es (freed + e.size) := by omega
        have := ih (freed + e.size) j2 hj2
        rw [List.take_succ_cons, sumSizes_cons]
        omega

theorem mkBytes_len (n : Nat) : ((mkBytes n).length : Int) = n := by
  simp [mkBytes]

theorem closeCore_currentSize (w : MemoryWriter) (m : Memory) :
    (memWriterCloseCore w m).currentSize =
      (if m.config.limitMB * 1024 * 1024 > 0 ∧
          m.currentSize - oldSizeOfEntries (ensureNs m.entries w.nspace) w.nspace w.key
            + (w.buf.length : Int) - m.config.limitMB * 1024 * 1024 > 0 then
        evictOldest { m with entries := ensureNs m.entries w.nspace }
          (m.currentSize - oldSizeOfEntries (ensureNs m.entries w.nspace) w.nspace w.key
            + (w.buf.length : Int) - m.config.limitMB * 1024 * 1024)
      else { m with entries := ensureNs m.entries w.nspace }).currentSize
      - oldSizeOfEntries (ensureNs m.entries w.nspace) w.nspace w.key
      + (w.buf.length : Int) := rfl

theorem closeCore_entries (w : MemoryWriter) (m : Memory) :
    (memWriterCloseCore w m).entries =
      amodify
        (if m.config.limitMB * 1024 * 1024 > 0 ∧
            m.currentSize - oldSizeOfEntries (ensureNs m.entries w.nspace) w.nspace w.key
              + (w.buf.length : Int) - m.config.limitMB * 1024 * 1024 > 0 then
          evictOldest { m with entries := ensureNs m.entries w.nspace }
            (m.currentSize - oldSizeOfEntries (ensureNs m.entries w.nspace) w.nspace w.key
              + (w.buf.length : Int) - m.config.limitMB * 1024 * 1024)
        else { m with entries := ensureNs m.entries w.nspace }).entries
        w.nspace
        (fun l => aupdate l w.key
          { data := w.buf, expiresAt := w.expiresAt, headers := w.headers }) := rfl

theorem mem_aupdate_of_ne {α : Type} (l : List (String × α)) (k : String) (v : α)
    (kv : String × α) (hmem : kv ∈ l) (hne : kv.1 ≠ k) :
    kv ∈ aupdate l k v := by
  unfold aupdate
  split
  · refine List.mem_map.mpr ⟨kv, hmem, ?_⟩
    rw [if_neg (by simpa using hne)]
  · exact List.mem_append_left _ hmem

theorem headerGet_headerSet_self (h : Header) (k v : String) :
    headerGet (headerSet h k v) k = v := by
  unfold headerGet headerSet
  rw [alookup_aupdate_self]

theorem httpTimeFormat_ne_empty (now : Int) : httpTimeFormat now ≠ "" := by
  intro hc
  have hd := congrArg String.data hc
  simp [httpTimeFormat] at hd

theorem strHasSuffix_iff (s t : String) :
    strHasSuffix s t = true ↔ t.data <:+ s.data := by
  unfold strHasSuffix
  exact List.isSuffixOf_iff_suffix

theorem strTrimSuffix_append (s t : String) : strTrimSuffix (s ++ t) t = s := by
  unfold strTrimSuffix
  rw [if_pos]
  · apply String.ext
    show ((s ++ t).data.take ((s ++ t).data.length - t.data.length)) = s.data
    rw [String.data_append, List.length_append]
    have hl : s.data.length + t.data.length - t.data.length = s.data.length := by omega
    rw [hl, List.take_left]
  · apply (strHasSuffix_iff _ _).mpr
    rw [String.data_append]
    exact List.suffix_append s.data t.data

theorem strTrimSuffix_of_not (s t : String) (h : strHasSuffix s t = false) :
    strTrimSuffix s t = s := by
  unfold strTrimSuffix
  rw [if_neg (by simp [h])]

theorem suffix_overlap {u v w : List Char} (h : v <:+ w ++ u) :
    v <:+ u ∨ u <:+ v := by
  by_cases hl : v.length ≤ u.length
  · left
    have hv : v.reverse <+: (w ++ u).reverse := List.reverse_prefix.mpr h
    have hu : u.reverse <+: (w ++ u).reverse :=
      List.reverse_prefix.mpr (List.suffix_append w u)
    have hp := List.prefix_of_prefix_length_le hv hu (by simpa using hl)
    exact List.reverse_prefix.mp hp
  · right
    have hv : v.reverse <+: (w ++ u).reverse := List.reverse_prefix.mpr h
    have hu : u.reverse <+: (w ++ u).reverse :=
      List.reverse_prefix.mpr (List.suffix_append w u)
    have hp := List.prefix_of_prefix_length_le hu hv (by simp; omega)
    exact List.reverse_prefix.mp hp

theorem strHasSuffix_append_false (s t1 t2 : String)
    (h1 : ¬ t2.data <:+ t1.data) (h2 : ¬ t1.data <:+ t2.data) :
    strHasSuffix (s ++ t1) t2 = false := by
  cases hb : strHasSuffix (s ++ t1) t2
  · rfl
  · exfalso
    have hs := (strHasSuffix_iff _ _).mp hb
    rw [String.data_append] at hs
    rcases suffix_overlap hs with hsub | hsub
    · exact h1 hsub
    · exact h2 hsub

theorem isSubChars_iff (pat : List Char) : ∀ l, isSubChars pat l = true ↔ pat <:+: l := by
  intro l
  induction l with
  | nil =>
    cases pat with
    | nil => simp [isSubChars]
    | cons c cs => simp [isSubChars]
  | cons c rest ih =>
    rw [isSubChars]
    simp [ List.isPrefixOf_iff_prefix, ih, List.infix_cons_iff]

theorem strContains_of_infix (s sub : String) (h : sub.data <:+: s.data) :
    strContains s sub = true :=
  (isSubChars_iff _ _).mpr h

theorem infix_append_left_of {u v : List Char} (w : List Char) (h : u <:+: v) :
    u <:+: v ++ w := by
  obtain ⟨s, t, rfl⟩ := h
  exact ⟨s, t ++ w, by simp⟩

theorem infix_append_right_of {u w : List Char} (v : List Char) (h : u <:+: w) :
    u <:+: v ++ w := by
  obtain ⟨s, t, rfl⟩ := h
  exact ⟨v ++ s, t, by simp⟩

/-! # The claims -/

/-- C10: `Repository.Clone` on a repository whose state is not `empty`
(cloning or ready) returns `nil` immediately, does not invoke `git`, and
leaves the repository — including `lastFetch` — unchanged; `executeClone`
runs exactly when the state was `empty`. -/
theorem claim_C10 (r : RepoState) (execResult : Option String) (now : Int) :
    (r.state ≠ GitState.empty →
      repoClone r execResult now = { repo := r, gitInvoked := false, err := none }) ∧
    ((repoClone r execResult now).gitInvoked = true ↔ r.state = GitState.empty) := by
  constructor
  · intro h
    simp [repoClone, h]
  · by_cases h : r.state = GitState.empty
    · cases execResult <;> simp [repoClone, h]
    · simp [repoClone, h]

/-- Witness for C10 at a concrete input: a repository mid-clone. -/
theorem claim_C10_witness :
    repoClone
        { state := GitState.cloning, path := "/m/github.com/o/r",
          upstreamURL := "https://github.com/o/r", lastFetch := 7 } none 9 =
      { repo := { state := GitState.cloning, path := "/m/github.com/o/r",
                  upstreamURL := "https://github.com/o/r", lastFetch := 7 },
        gitInvoked := false, err := none } :=
  (claim_C10
    { state := GitState.cloning, path := "/m/github.com/o/r",
      upstreamURL := "https://github.com/o/r", lastFetch := 7 } none 9).1
    (by decide)

/-- C5: closing a memory-cache writer whose context was cancelled before
`Close` returns an error and publishes nothing: the cache is untouched, so
`Open` and `Stat` of the key afterwards observe exactly what they did
before. -/
theorem claim_C5 (w : MemoryWriter) (m : Memory) (t : Int)
    (hcc : w.ctxCancelled = true) (hcl : w.closed = false) :
    (memWriterClose w m).1 = some "create operation cancelled" ∧
    (memWriterClose w m).2 = m ∧
    memOpen (memWriterClose w m).2 w.key t = memOpen m w.key t ∧
    memStat (memWriterClose w m).2 w.key t = memStat m w.key t := by
  simp [memWriterClose, hcc, hcl]

/-- Witness for C5 at a concrete input: a cancelled writer over `c4Memory`
holding one buffered byte. -/
theorem claim_C5_witness :
    (memWriterClose
        { nspace := "", key := "k", buf := [7], expiresAt := 3600, headers := [],
          closed := false, ctxCancelled := true } c4Memory).1 =
      some "create operation cancelled" ∧
    (memWriterClose
        { nspace := "", key := "k", buf := [7], expiresAt := 3600, headers := [],
          closed := false, ctxCancelled := true } c4Memory).2 = c4Memory :=
  ⟨(claim_C5
      { nspace := "", key := "k", buf := [7], expiresAt := 3600, headers := [],
        closed := false, ctxCancelled := true } c4Memory 0 rfl rfl).1,
   (claim_C5
      { nspace := "", key := "k", buf := [7], expiresAt := 3600, headers := [],
        closed := false, ctxCancelled := true } c4Memory 0 rfl rfl).2.1⟩

/-- C1: for any namespace (the cache's view), key, bytes `v`, headers `h`
and `ttl > 0`: writing `v` through a `Create(k, h, ttl)` writer and closing
it successfully makes `Open(k)` at any time up to expiry return exactly the
bytes `v`, together with headers that keep every non-`Last-Modified` header
of `h` (and all of `h` whenever `h` already carried a `Last-Modified`
value), and that always carry a nonempty `Last-Modified`. -/
theorem claim_C1 (m : Memory) (key : String) (v : ByteStr) (h : Header)
    (ttl now tOpen : Int) (httl : 0 < ttl) (hopen : tOpen ≤ now + ttl) :
    ∃ (w1 : MemoryWriter) (hdrs : Header),
      memWrite (memCreate m key h ttl now false) v = Except.ok (w1, v.length) ∧
      (memWriterClose w1 m).1 = none ∧
      memOpen (memWriterClose w1 m).2 key tOpen = some (v, hdrs) ∧
      memStat (memWriterClose w1 m).2 key tOpen = some hdrs ∧
      (∀ kv ∈ h, kv.1 ≠ "Last-Modified" → kv ∈ hdrs) ∧
      (headerGet h "Last-Modified" ≠ "" → ∀ kv ∈ h, kv ∈ hdrs) ∧
      headerGet hdrs "Last-Modified" ≠ "" := by
  refine ⟨{ memCreate m key h ttl now false with buf := v },
    (memCreate m key h ttl now false).headers, ?_, ?_, ?_, ?_, ?_, ?_, ?_⟩
  · have hclosed : (memCreate m key h ttl now false).closed = false := rfl
    have hbuf0 : (memCreate m key h ttl now false).buf = [] := rfl
    simp [memWrite, hclosed, hbuf0]
  · rfl
  · obtain ⟨es, hes, hkey⟩ :=
      memWriterCloseCore_open { memCreate m key h ttl now false with buf := v } m
    have hexp : ({ memCreate m key h ttl now false with buf := v } :
        MemoryWriter).expiresAt = now + ttl := by
      simp [memCreate, show ttl ≠ 0 by omega]
    have hes' : alookup
        (memWriterCloseCore { memCreate m key h ttl now false with buf := v } m).entries
        (memWriterCloseCore { memCreate m key h ttl now false with buf := v } m).nspace =
          some es := by
      rw [memWriterCloseCore_nspace]
      exact hes
    have h3 : ¬ tOpen > ({ memCreate m key h ttl now false with buf := v } :
        MemoryWriter).expiresAt := by
      rw [hexp]; omega
    exact memOpen_eq _ key tOpen es _ hes' hkey h3
  · obtain ⟨es, hes, hkey⟩ :=
      memWriterCloseCore_open { memCreate m key h ttl now false with buf := v } m
    have hexp : ({ memCreate m key h ttl now false with buf := v } :
        MemoryWriter).expiresAt = now + ttl := by
      simp [memCreate, show ttl ≠ 0 by omega]
    have hes' : alookup
        (memWriterCloseCore { memCreate m key h ttl now false with buf := v } m).entries
        (memWriterCloseCore { memCreate m key h ttl now false with buf := v } m).nspace =
          some es := by
      rw [memWriterCloseCore_nspace]
      exact hes
    have h3 : ¬ tOpen > ({ memCreate m key h ttl now false with buf := v } :
        MemoryWriter).expiresAt := by
      rw [hexp]; omega
    exact memStat_eq _ key tOpen es _ hes' hkey h3
  · intro kv hkv hne
    have hhdrs : (memCreate m key h ttl now false).headers =
        (if (headerGet h "Last-Modified" == "") = true then
          headerSet h "Last-Modified" (httpTimeFormat now) else h) := rfl
    rw [hhdrs]
    split
    · unfold headerSet
      exact mem_aupdate_of_ne h "Last-Modified" _ kv hkv hne
    · exact hkv
  · intro hlm kv hkv
    have hhdrs : (memCreate m key h ttl now false).headers =
        (if (headerGet h "Last-Modified" == "") = true then
          headerSet h "Last-Modified" (httpTimeFormat now) else h) := rfl
    rw [hhdrs, if_neg (by simpa using hlm)]
    exact hkv
  · have hhdrs : (memCreate m key h ttl now false).headers =
        (if (headerGet h "Last-Modified" == "") = true then
          headerSet h "Last-Modified" (httpTimeFormat now) else h) := rfl
    rw [hhdrs]
    split
    · rw [headerGet_headerSet_self]
      exact httpTimeFormat_ne_empty now
    · next hcond => simpa using hcond

/-- Witness for C1 at a concrete input: writing `"hi"`-like bytes under a
`Content-Type` header into the empty cache and reading them back before
expiry. -/
theorem claim_C1_witness :
    ∃ (w1 : MemoryWriter) (hdrs : Header),
      memWrite (memCreate c4Memory "k" [("Content-Type", ["text/plain"])] 3600 0 false)
          [104, 105] = Except.ok (w1, [104, 105].length) ∧
      (memWriterClose w1 c4Memory).1 = none ∧
      memOpen (memWriterClose w1 c4Memory).2 "k" 100 = some ([104, 105], hdrs) ∧
      memStat (memWriterClose w1 c4Memory).2 "k" 100 = some hdrs ∧
      (∀ kv ∈ [("Content-Type", ["text/plain"])], kv.1 ≠ "Last-Modified" → kv ∈ hdrs) ∧
      (headerGet [("Content-Type", ["text/plain"])] "Last-Modified" ≠ "" →
        ∀ kv ∈ [("Content-Type", ["text/plain"])], kv ∈ hdrs) ∧
      headerGet hdrs "Last-Modified" ≠ "" :=
  claim_C1 c4Memory "k" [104, 105] [("Content-Type", ["text/plain"])] 3600 0 100
    (by decide) (by decide)

/-- C2: on every successful close of a memory-cache `Create` writer, if
inserting the new entry would push the accounted size past
`limit_mb * 1Mi` (and the limit is positive), entries are evicted as the
leading rows of the expiry-sorted listing of all resident entries —
ascending `expires_at`, soonest first — cutting off as soon as the freed
bytes reach the needed space, or only when every entry is gone if even that
cannot make room; and in every case (evicting or not, room or not) the new
entry is inserted afterwards under the writer's key. -/
theorem claim_C2 (m : Memory) (w : MemoryWriter)
    (hcl : w.closed = false) (hcc : w.ctxCancelled = false) :
    (memWriterClose w m).1 = none ∧
    (∃ es, alookup (memWriterClose w m).2.entries w.nspace = some es ∧
      alookup es w.key =
        some { data := w.buf, expiresAt := w.expiresAt, headers := w.headers }) ∧
    (∀ needed : Int,
      needed = m.currentSize
        - oldSizeOfEntries (ensureNs m.entries w.nspace) w.nspace w.key
        + (w.buf.length : Int) - m.config.limitMB * 1024 * 1024 →
      m.config.limitMB * 1024 * 1024 > 0 → needed > 0 →
      ∃ sorted k,
        sorted = sortByExpiry (collectEntries m.entries) ∧
        k = evictCount needed sorted 0 ∧
        List.Pairwise (fun a b => a.expiresAt ≤ b.expiresAt) sorted ∧
        List.Perm sorted (collectEntries m.entries) ∧
        (memWriterClose w m).2.entries =
          amodify (removeInfos (sorted.take k) (ensureNs m.entries w.nspace))
            w.nspace
            (fun l => aupdate l w.key
              { data := w.buf, expiresAt := w.expiresAt, headers := w.headers }) ∧
        (sumSizes (sorted.take k) ≥ needed ∨ k = sorted.length) ∧
        (∀ j, j < k → sumSizes (sorted.take j) < needed)) := by
  have hclose : memWriterClose w m = (none, memWriterCloseCore w m) := by
    simp [memWriterClose, hcl, hcc]
  refine ⟨by rw [hclose], ?_, ?_⟩
  · rw [hclose]
    exact memWriterCloseCore_open w m
  · intro needed hneed hlim hpos
    subst hneed
    refine ⟨sortByExpiry (collectEntries m.entries), _, rfl, rfl,
      sortByExpiry_sorted _, sortByExpiry_perm _, ?_, ?_, ?_⟩
    · rw [hclose]
      have hXY : (evictOldest { m with entries := ensureNs m.entries w.nspace }
          (m.currentSize
            - oldSizeOfEntries (ensureNs m.entries w.nspace) w.nspace w.key
            + (w.buf.length : Int) - m.config.limitMB * 1024 * 1024)).entries =
          removeInfos ((sortByExpiry (collectEntries m.entries)).take
            (evictCount (m.currentSize
              - oldSizeOfEntries (ensureNs m.entries w.nspace) w.nspace w.key
              + (w.buf.length : Int) - m.config.limitMB * 1024 * 1024)
              (sortByExpiry (collectEntries m.entries)) 0))
            (ensureNs m.entries w.nspace) := by
        rw [evictOldest, evictGo_eq]
        dsimp only
        rw [collectEntries_ensureNs]
      rw [show ((none : Option String), memWriterCloseCore w m).2 =
        memWriterCloseCore w m from rfl]
      rw [closeCore_entries, if_pos ⟨hlim, hpos⟩, hXY]
    · rcases evictCount_spec (m.currentSize
          - oldSizeOfEntries (ensureNs m.entries w.nspace) w.nspace w.key
          + (w.buf.length : Int) - m.config.limitMB * 1024 * 1024)
          (sortByExpiry (collectEntries m.entries)) 0 with hsp | hsp
      · left; omega
      · right; exact hsp
    · intro j hj
      have := evictCount_min (m.currentSize
          - oldSizeOfEntries (ensureNs m.entries w.nspace) w.nspace w.key
          + (w.buf.length : Int) - m.config.limitMB * 1024 * 1024)
          (sortByExpiry (collectEntries m.entries)) 0 j hj
      omega

/-- Witness for C2 at a concrete input: closing a fresh one-byte writer
over the empty default cache succeeds and makes the entry resident. -/
theorem claim_C2_witness :
    (memWriterClose
        { nspace := "", key := "k", buf := [9], expiresAt := 60, headers := [],
          closed := false, ctxCancelled := false } c4Memory).1 = none ∧
    (∃ es, alookup
        (memWriterClose
          { nspace := "", key := "k", buf := [9], expiresAt := 60, headers := [],
            closed := false, ctxCancelled := false } c4Memory).2.entries "" = some es ∧
      alookup es "k" = some { data := [9], expiresAt := 60, headers := [] }) :=
  ⟨(claim_C2 c4Memory
      { nspace := "", key := "k", buf := [9], expiresAt := 60, headers := [],
        closed := false, ctxCancelled := false } rfl rfl).1,
   (claim_C2 c4Memory
      { nspace := "", key := "k", buf := [9], expiresAt := 60, headers := [],
        closed := false, ctxCancelled := false } rfl rfl).2.1⟩

/-- C3: the size-accounting invariant `currentSize = Σ resident sizes` is
**broken** by `memoryWriter.Close` when the eviction it triggers removes the
very entry being replaced. On `c3Memory` (entries `a` and `b` of one byte
each, `currentSize = 2`, limit 1 MB) a re-creation of `a` with a
1 MiB + 1 body needs 2 bytes freed; `evictOldest` evicts `a` (soonest
expiry, subtracting its size) and `b`, and `Close` then subtracts `a`'s
`oldSize` a second time: the close succeeds, the accounted size ends at
1048576 while the only resident entry holds 1048577 bytes — the double
subtraction of the replaced entry's size leaves `currentSize` short by
exactly `oldSize`. -/
theorem claim_C3 :
    (memWriterClose c3Writer c3Memory).1 = none ∧
    (memWriterClose c3Writer c3Memory).2.currentSize = 1048576 ∧
    totalResidentSize (memWriterClose c3Writer c3Memory).2 = 1048577 ∧
    (memWriterClose c3Writer c3Memory).2.currentSize ≠
      totalResidentSize (memWriterClose c3Writer c3Memory).2 := by
  have hbuf : ((c3Writer.buf).length : Int) = 1048577 := by
    rw [show c3Writer.buf = mkBytes 1048577 from rfl, mkBytes_len]; decide
  have hns : c3Writer.nspace = "" := rfl
  have hkey : c3Writer.key = "a" := rfl
  have h2 : (memWriterClose c3Writer c3Memory).2 =
      memWriterCloseCore c3Writer c3Memory := rfl
  have hold : oldSizeOfEntries (ensureNs c3Memory.entries "") "" "a" = 1 := by decide
  have hcs : c3Memory.currentSize = 2 := rfl
  have hlim : c3Memory.config.limitMB = 1 := rfl
  have hcond2 : c3Memory.config.limitMB * 1024 * 1024 > 0 ∧
      c3Memory.currentSize - oldSizeOfEntries (ensureNs c3Memory.entries "") "" "a"
        + (1048577 : Int) - c3Memory.config.limitMB * 1024 * 1024 > 0 := by
    rw [hold, hcs, hlim]; norm_num
  have hev : evictOldest
      { config := c3Memory.config, nspace := c3Memory.nspace,
        entries := ensureNs c3Memory.entries "", currentSize := c3Memory.currentSize }
      (c3Memory.currentSize - oldSizeOfEntries (ensureNs c3Memory.entries "") "" "a"
        + (1048577 : Int) - c3Memory.config.limitMB * 1024 * 1024) =
      { config := { limitMB := 1, maxTTL := 3600 }, nspace := "",
        entries := [("", [])], currentSize := 0 } := by decide
  have hA : (memWriterClose c3Writer c3Memory).2.currentSize = 1048576 := by
    rw [h2, closeCore_currentSize, hns, hkey, hbuf]
    rw [if_pos hcond2, hev, hold]
    norm_num
  have hB : totalResidentSize (memWriterClose c3Writer c3Memory).2 = 1048577 := by
    rw [h2]
    unfold totalResidentSize
    rw [closeCore_entries, hns, hkey, hbuf, if_pos hcond2, hev]
    simp [amodify, aupdate, collectEntries, hbuf]
  exact ⟨rfl, hA, hB, by rw [hA, hB]; decide⟩

/-- C4, counterexample: `Create` with `ttl = -1 ≤ 0` does **not** use the
configured `max_ttl` (3600): the writer's expiry is `now + ttl = 99`, not
`now + max_ttl = 3700`, and after a successful close the entry is already
expired — `Open` at creation time misses. The code substitutes `MaxTTL`
only when `ttl == 0`. -/
theorem claim_C4_counterexample :
    (memCreate c4Memory "k" [] (-1) 100 false).expiresAt ≠
      100 + c4Memory.config.maxTTL ∧
    (memWriterClose (memCreate c4Memory "k" [] (-1) 100 false) c4Memory).1 = none ∧
    memOpen (memWriterClose (memCreate c4Memory "k" [] (-1) 100 false) c4Memory).2
      "k" 100 = none := by
  refine ⟨by decide, by decide, by decide⟩

/-- C4, amended: a `Create` with `ttl = 0` sets the expiry from the
backend's configured `max_ttl` (`expires_at = now + max_ttl`); any nonzero
`ttl` — including negative ones — is used as given, so for `ttl < 0` the
entry is created already expired (`now` is past its `expires_at`). -/
theorem claim_C4 (m : Memory) (key : String) (h : Header) (now ttl : Int)
    (c : Bool) :
    (ttl = 0 → (memCreate m key h ttl now c).expiresAt = now + m.config.maxTTL) ∧
    (ttl ≠ 0 → (memCreate m key h ttl now c).expiresAt = now + ttl) ∧
    (ttl < 0 → now > (memCreate m key h ttl now c).expiresAt) := by
  refine ⟨fun h0 => ?_, fun hn => ?_, fun hneg => ?_⟩
  · simp [memCreate, h0]
  · simp [memCreate, hn]
  · have hn : ttl ≠ 0 := by omega
    have hx : (memCreate m key h ttl now c).expiresAt = now + ttl := by
      simp [memCreate, hn]
    omega

/-- Witness for C4 (amended) at concrete inputs: `ttl = 0` takes the
configured hour, `ttl = -1` is taken literally and lies in the past. -/
theorem claim_C4_witness :
    (memCreate c4Memory "k" [] 0 100 false).expiresAt =
      100 + c4Memory.config.maxTTL ∧
    (memCreate c4Memory "k" [] (-1) 100 false).expiresAt = 100 + (-1) ∧
    (100 : Int) > (memCreate c4Memory "k" [] (-1) 100 false).expiresAt :=
  ⟨(claim_C4 c4Memory "k" [] 100 0 false).1 rfl,
   (claim_C4 c4Memory "k" [] 100 (-1) false).2.1 (by decide),
   (claim_C4 c4Memory "k" [] 100 (-1) false).2.2 (by decide)⟩

/-- C6: `Fetch` on a cache hit for `sha256(url)` returns a synthetic
`200 OK` response carrying exactly the cached headers and body without
calling the origin and without starting a cache write; on a miss whose
origin response has a status other than 200, the origin response is
returned unchanged and no cache entry is created. -/
theorem claim_C6 :
    (∀ (cacheOpen : ByteStr → Except CacheOpenErr (ByteStr × Header))
        (url : String) (origin : Except String HttpResponse)
        (data : ByteStr) (hdrs : Header),
      cacheOpen (NewKey url) = Except.ok (data, hdrs) →
      Fetch cacheOpen url origin =
        { result := FetchResult.ok
            { status := "200 OK", statusCode := 200, headers := hdrs, body := data }
          originCalled := false
          created := none }) ∧
    (∀ (cacheOpen : ByteStr → Except CacheOpenErr (ByteStr × Header))
        (url : String) (resp : HttpResponse),
      cacheOpen (NewKey url) = Except.error CacheOpenErr.notExist →
      resp.statusCode ≠ 200 →
      Fetch cacheOpen url (Except.ok resp) =
        { result := FetchResult.ok resp, originCalled := true, created := none }) := by
  constructor
  · intro cacheOpen url origin data hdrs hhit
    simp [Fetch, hhit]
  · intro cacheOpen url resp hmiss hstatus
    simp [Fetch, hmiss, hstatus]

/-- Witness for C6 at concrete inputs: a hit serving cached bytes, and a
miss whose origin answered 404. -/
theorem claim_C6_witness :
    Fetch (fun _ => Except.ok ([7, 8], [("Content-Type", ["text/plain"])]))
        "https://example.com/x" (Except.error "unreachable") =
      { result := FetchResult.ok
          { status := "200 OK", statusCode := 200,
            headers := [("Content-Type", ["text/plain"])], body := [7, 8] }
        originCalled := false
        created := none } ∧
    Fetch (fun _ => Except.error CacheOpenErr.notExist) "https://example.com/x"
        (Except.ok { status := "404 Not Found", statusCode := 404, headers := [],
                     body := [] }) =
      { result := FetchResult.ok
          { status := "404 Not Found", statusCode := 404, headers := [], body := [] }
        originCalled := true
        created := none } :=
  ⟨claim_C6.1 (fun _ => Except.ok ([7, 8], [("Content-Type", ["text/plain"])]))
      "https://example.com/x" (Except.error "unreachable") [7, 8]
      [("Content-Type", ["text/plain"])] rfl,
   claim_C6.2 (fun _ => Except.error CacheOpenErr.notExist) "https://example.com/x"
      { status := "404 Not Found", statusCode := 404, headers := [], body := [] }
      rfl (by decide)⟩

/-- C7: `SpoolKeyForRequest` returns `""` (not spoolable) whenever the path
does not end in `/git-upload-pack`; for a `POST` with a body it returns
`"upload-pack-"` followed by the hex of the first 8 bytes of the body's
SHA-256 — so identical bodies give identical keys, and the concrete
one-byte change `[65] → [66]` changes the key — and for a bodyless
upload-pack request it returns the fixed string `"upload-pack"`. -/
theorem claim_C7 :
    (∀ (p m : String) (b : Option ByteStr),
      strHasSuffix p "/git-upload-pack" = false →
      SpoolKeyForRequest p m b = "") ∧
    (∀ (p : String) (b : ByteStr),
      strHasSuffix p "/git-upload-pack" = true →
      SpoolKeyForRequest p "POST" (some b) =
        "upload-pack-" ++ hexEncode ((sha256 b).take 8)) ∧
    (∀ (p : String) (b1 b2 : ByteStr), b1 = b2 →
      SpoolKeyForRequest p "POST" (some b1) = SpoolKeyForRequest p "POST" (some b2)) ∧
    (∀ (p m : String),
      strHasSuffix p "/git-upload-pack" = true →
      SpoolKeyForRequest p m none = "upload-pack") ∧
    SpoolKeyForRequest "/o/r/git-upload-pack" "POST" (some [65]) ≠
      SpoolKeyForRequest "/o/r/git-upload-pack" "POST" (some [66]) := by
  refine ⟨?_, ?_, ?_, ?_, ?_⟩
  · intro p m b hsuf
    simp [SpoolKeyForRequest, hsuf]
  · intro p b hsuf
    simp [SpoolKeyForRequest, hsuf]
  · intro p b1 b2 heq
    rw [heq]
  · intro p m hsuf
    rcases hm : (m == "POST") with _ | _ <;>
      simp [SpoolKeyForRequest, hsuf, hm]
  · decide

/-- Witness for C7 at concrete inputs: a non-upload-pack path is not
spoolable, a concrete `POST` body is keyed by its truncated hash, and a
bodyless request gets the fixed key. -/
theorem claim_C7_witness :
    SpoolKeyForRequest "/o/r/info/refs" "GET" (some [1]) = "" ∧
    SpoolKeyForRequest "/o/r/git-upload-pack" "POST" (some [65]) =
      "upload-pack-" ++ hexEncode ((sha256 [65]).take 8) ∧
    SpoolKeyForRequest "/o/r/git-upload-pack" "GET" none = "upload-pack" :=
  ⟨claim_C7.1 "/o/r/info/refs" "GET" (some [1]) (by decide),
   claim_C7.2.1 "/o/r/git-upload-pack" [65] (by decide),
   claim_C7.2.2.2.1 "/o/r/git-upload-pack" "GET" (by decide)⟩

/-- C9, counterexample: the path `"a" ++ "/info/refs" ++ "/git-upload-pack"`
ends in a combination of the listed suffixes, yet `ExtractRepoPath` returns
`"a/info/refs"`, not the bare path `"a"` — the code trims each suffix only
once, in the fixed order `/info/refs`, `/git-upload-pack`,
`/git-receive-pack`, `.git`, so a `/git-upload-pack` stacked outside an
`/info/refs` hides it. -/
theorem claim_C9_counterexample :
    "a/info/refs/git-upload-pack" = "a" ++ "/info/refs" ++ "/git-upload-pack" ∧
    ExtractRepoPath ("a" ++ "/info/refs" ++ "/git-upload-pack") = "a/info/refs" ∧
    ("a/info/refs" : String) ≠ "a" := by
  refine ⟨by decide, by decide, by decide⟩

/-- C9, amended: `ExtractRepoPath` trims one occurrence of each of
`/info/refs`, `/git-upload-pack`, `/git-receive-pack` and `.git`, in that
order; consequently, for a base path not itself ending in any of the four
suffixes, every combination stacked in nesting order — `.git` innermost,
then `/git-receive-pack`, then `/git-upload-pack`, then `/info/refs`
outermost, each present or absent — is removed entirely, returning the bare
repository path (combinations stacked in any other order are not all
removed, per the counterexample). -/
theorem claim_C9 (base : String)
    (h1 : strHasSuffix base "/info/refs" = false)
    (h2 : strHasSuffix base "/git-upload-pack" = false)
    (h3 : strHasSuffix base "/git-receive-pack" = false)
    (h4 : strHasSuffix base ".git" = false)
    (x1 x2 x3 x4 : String)
    (hx1 : x1 = "" ∨ x1 = ".git")
    (hx2 : x2 = "" ∨ x2 = "/git-receive-pack")
    (hx3 : x3 = "" ∨ x3 = "/git-upload-pack")
    (hx4 : x4 = "" ∨ x4 = "/info/refs") :
    ExtractRepoPath (base ++ x1 ++ x2 ++ x3 ++ x4) = base := by
  have hER : ∀ p : String, ExtractRepoPath p =
      strTrimSuffix (strTrimSuffix (strTrimSuffix
        (strTrimSuffix p "/info/refs") "/git-upload-pack") "/git-receive-pack")
        ".git" := fun _ => rfl
  have nRup : ∀ s : String,
      strHasSuffix (s ++ "/git-upload-pack") "/info/refs" = false :=
    fun s => strHasSuffix_append_false s _ _ (by decide) (by decide)
  have nRre : ∀ s : String,
      strHasSuffix (s ++ "/git-receive-pack") "/info/refs" = false :=
    fun s => strHasSuffix_append_false s _ _ (by decide) (by decide)
  have nRgit : ∀ s : String, strHasSuffix (s ++ ".git") "/info/refs" = false :=
    fun s => strHasSuffix_append_false s _ _ (by decide) (by decide)
  have nUre : ∀ s : String,
      strHasSuffix (s ++ "/git-receive-pack") "/git-upload-pack" = false :=
    fun s => strHasSuffix_append_false s _ _ (by decide) (by decide)
  have nUgit : ∀ s : String, strHasSuffix (s ++ ".git") "/git-upload-pack" = false :=
    fun s => strHasSuffix_append_false s _ _ (by decide) (by decide)
  have nREgit : ∀ s : String,
      strHasSuffix (s ++ ".git") "/git-receive-pack" = false :=
    fun s => strHasSuffix_append_false s _ _ (by decide) (by decide)
  rcases hx1 with rfl | rfl <;> rcases hx2 with rfl | rfl <;>
    rcases hx3 with rfl | rfl <;> rcases hx4 with rfl | rfl <;>
    simp only [String.append_empty, hER]
  · rw [strTrimSuffix_of_not _ _ h1, strTrimSuffix_of_not _ _ h2,
      strTrimSuffix_of_not _ _ h3, strTrimSuffix_of_not _ _ h4]
  · rw [strTrimSuffix_append, strTrimSuffix_of_not _ _ h2,
      strTrimSuffix_of_not _ _ h3, strTrimSuffix_of_not _ _ h4]
  · rw [strTrimSuffix_of_not _ _ (nRup base), strTrimSuffix_append,
      strTrimSuffix_of_not _ _ h3, strTrimSuffix_of_not _ _ h4]
  · rw [strTrimSuffix_append, strTrimSuffix_append,
      strTrimSuffix_of_not _ _ h3, strTrimSuffix_of_not _ _ h4]
  · rw [strTrimSuffix_of_not _ _ (nRre base), strTrimSuffix_of_not _ _ (nUre base),
      strTrimSuffix_append, strTrimSuffix_of_not _ _ h4]
  · rw [strTrimSuffix_append, strTrimSuffix_of_not _ _ (nUre base),
      strTrimSuffix_append, strTrimSuffix_of_not _ _ h4]
  · rw [strTrimSuffix_of_not _ _ (nRup (base ++ "/git-receive-pack")),
      strTrimSuffix_append, strTrimSuffix_append, strTrimSuffix_of_not _ _ h4]
  · rw [strTrimSuffix_append, strTrimSuffix_append, strTrimSuffix_append,
      strTrimSuffix_of_not _ _ h4]
  · rw [strTrimSuffix_of_not _ _ (nRgit base), strTrimSuffix_of_not _ _ (nUgit base),
      strTrimSuffix_of_not _ _ (nREgit base), strTrimSuffix_append]
  · rw [strTrimSuffix_append, strTrimSuffix_of_not _ _ (nUgit base),
      strTrimSuffix_of_not _ _ (nREgit base), strTrimSuffix_append]
  · rw [strTrimSuffix_of_not _ _ (nRup (base ++ ".git")), strTrimSuffix_append,
      strTrimSuffix_of_not _ _ (nREgit base), strTrimSuffix_append]
  · rw [strTrimSuffix_append, strTrimSuffix_append,
      strTrimSuffix_of_not _ _ (nREgit base), strTrimSuffix_append]
  · rw [strTrimSuffix_of_not _ _ (nRre (base ++ ".git")),
      strTrimSuffix_of_not _ _ (nUre (base ++ ".git")),
      strTrimSuffix_append, strTrimSuffix_append]
  · rw [strTrimSuffix_append, strTrimSuffix_of_not _ _ (nUre (base ++ ".git")),
      strTrimSuffix_append, strTrimSuffix_append]
  · rw [strTrimSuffix_of_not _ _ (nRup ((base ++ ".git") ++ "/git-receive-pack")),
      strTrimSuffix_append, strTrimSuffix_append, strTrimSuffix_append]
  · rw [strTrimSuffix_append, strTrimSuffix_append, strTrimSuffix_append,
      strTrimSuffix_append]

/-- C8, counterexample: the guard is `strings.Contains(repoURL,
"github.com")` over the whole URL, not a host check. For
`https://example.com/github.com/repo` — host `example.com` — a provider
yielding the non-empty token `"tok"` still gets a
`-c credential.helper=...` argument added, contradicting the claim's "if
the host is not github.com ... no credential.helper argument is added". -/
theorem claim_C8_counterexample :
    specURLHost "https://example.com/github.com/repo" ≠ "github.com" ∧
    repoGitCommandArgs [] (some (fun _ => Except.ok "tok"))
        "https://example.com/github.com/repo" ["clone"] =
      ["-c", "credential.helper=" ++ credHelperString "tok", "clone"] := by
  refine ⟨by decide, by decide⟩

/-- C8, amended: the credential helper is keyed on the URL **containing**
the substring `"github.com"` (true in particular whenever the host is
`github.com`), with a provider present and a non-empty token: then the
arguments are the `insteadOf`-neutralising flags, followed by `-c`
`credential.helper=<helper>`, followed by the caller's arguments, where the
helper text asks for `username=x-access-token` and prints the
(quote-escaped) token as the password. With no provider, a URL not
containing `"github.com"`, an empty token or a provider error, no
credential-helper argument is added. -/
theorem claim_C8 :
    (∀ (rows : List (String × String)) (p : String → Except String String)
        (url : String) (args : List String) (t : String),
      strContains url "github.com" = true → p url = Except.ok t → t ≠ "" →
      repoGitCommandArgs rows (some p) url args =
        insteadOfDisableArgs rows url
          ++ ["-c", "credential.helper=" ++ credHelperString t] ++ args) ∧
    (∀ (rows : List (String × String)) (p : String → Except String String)
        (url : String) (args : List String),
      strContains url "github.com" = false →
      repoGitCommandArgs rows (some p) url args =
        insteadOfDisableArgs rows url ++ args) ∧
    (∀ (rows : List (String × String)) (url : String) (args : List String),
      repoGitCommandArgs rows none url args =
        insteadOfDisableArgs rows url ++ args) ∧
    (∀ (rows : List (String × String)) (p : String → Except String String)
        (url : String) (args : List String),
      (p url = Except.ok "" ∨ ∃ e, p url = Except.error e) →
      repoGitCommandArgs rows (some p) url args =
        insteadOfDisableArgs rows url ++ args) ∧
    (∀ t : String,
      strContains (credHelperString t) "username=x-access-token" = true ∧
      strContains (credHelperString t) "password=%s" = true ∧
      strContains (credHelperString t)
        (sq ++ strReplaceAll t sq (sq ++ "\\" ++ sq ++ sq) ++ sq) = true) := by
  refine ⟨?_, ?_, ?_, ?_, ?_⟩
  · intro rows p url args t hcon htok hne
    simp [repoGitCommandArgs, hcon, htok, hne]
  · intro rows p url args hcon
    simp [repoGitCommandArgs, hcon]
  · intro rows url args
    simp [repoGitCommandArgs]
  · intro rows p url args hp
    rcases hcontains : strContains url "github.com" with _ | _
    · simp [repoGitCommandArgs, hcontains]
    · rcases hp with hp | ⟨e, hp⟩ <;> simp [repoGitCommandArgs, hcontains, hp]
  · intro t
    have hdata : (credHelperString t).data =
        ("!f() \x7b test \"$1\" = get && echo username=x-access-token && printf " :
          String).data ++ (sq.data ++ (("password=%s\\n" : String).data ++
          (sq.data ++ ((" " : String).data ++ (sq.data ++
          ((strReplaceAll t sq (sq ++ "\\" ++ sq ++ sq)).data ++
          (sq.data ++ (("; \x7d; f" : String).data)))))))) := by
      simp [credHelperString, String.data_append]
    refine ⟨?_, ?_, ?_⟩
    · apply strContains_of_infix
      rw [hdata]
      exact infix_append_left_of _ (by decide)
    · apply strContains_of_infix
      rw [hdata]
      refine infix_append_right_of _ (infix_append_right_of _ ?_)
      exact infix_append_left_of _ (by decide)
    · apply strContains_of_infix
      rw [hdata]
      refine infix_append_right_of _ (infix_append_right_of _
        (infix_append_right_of _ (infix_append_right_of _
          (infix_append_right_of _ ?_))))
      rw [String.data_append, String.data_append]
      exact ⟨[], ("; \x7d; f" : String).data, by simp⟩

/-- Witness for C8 (amended) at concrete inputs: a github.com URL with an
`insteadOf` rewrite row and token `"tok"` gets the neutralising flag and
the helper; a gitlab URL gets neither. -/
theorem claim_C8_witness :
    repoGitCommandArgs [("url.ssh://git@github.com/.insteadof", "https://github.com/")]
        (some (fun _ => Except.ok "tok")) "https://github.com/org/repo" ["clone"] =
      insteadOfDisableArgs
          [("url.ssh://git@github.com/.insteadof", "https://github.com/")]
          "https://github.com/org/repo"
        ++ ["-c", "credential.helper=" ++ credHelperString "tok"] ++ ["clone"] ∧
    repoGitCommandArgs [] (some (fun _ => Except.ok "tok"))
        "https://gitlab.com/org/repo" ["fetch"] =
      insteadOfDisableArgs [] "https://gitlab.com/org/repo" ++ ["fetch"] :=
  ⟨claim_C8.1 [("url.ssh://git@github.com/.insteadof", "https://github.com/")]
      (fun _ => Except.ok "tok") "https://github.com/org/repo" ["clone"] "tok"
      (by decide) rfl (by decide),
   claim_C8.2.1 [] (fun _ => Except.ok "tok") "https://gitlab.com/org/repo"
      ["fetch"] (by decide)⟩

/-- Witness for C9 (amended) at a concrete input: the usual
`repo.git/info/refs` shape strips to the bare repo path. -/
theorem claim_C9_witness :
    ExtractRepoPath ("squareup/blox" ++ ".git" ++ "" ++ "" ++ "/info/refs") =
      "squareup/blox" :=
  claim_C9 "squareup/blox" (by decide) (by decide) (by decide) (by decide)
    ".git" "" "" "/info/refs" (Or.inr rfl) (Or.inl rfl) (Or.inl rfl) (Or.inr rfl)

end Cachew
